import Mathlib

/-!
Shallow embedding of the chess-variant engine in `ChessVar.py`
(classes `ChessVar`, `ChessBoard`, `Piece`, `King`, `Queen`, `Rook`,
`Bishop`, `Knight`, `Pawn`), together with theorems checking the
natural-language specification against it.

Conventions of the embedding:
* the board is a list of lists of optional pieces, exactly as the Python
  2D list; coordinates are `Nat` indices, row 0 = rank 8, col 0 = file A;
* Python integer arithmetic that may pass through negative values
  (`from_row - 1`, `to_col - from_col`, ...) is done in `Int`;
* the `_current_pieces_on_board` nested dictionary becomes a structure
  with one field per key;
* `print` calls are ignored (they do not affect state or results);
* a `KeyError` that Python would raise inside `algebraic_to_indices`
  becomes the `MoveResult.error` result of `make_move`.
-/

namespace ChessVarPy

inductive Color where
  | WHITE
  | BLACK
deriving DecidableEq, Fintype

inductive Kind where
  | King
  | Queen
  | Rook
  | Bishop
  | Knight
  | Pawn
deriving DecidableEq, Fintype

/-- A piece: its class name (kind) and its `_color` attribute. -/
structure Piece where
  color : Color
  kind : Kind
deriving DecidableEq, Fintype

/-- The `_board` attribute: a 2D list of optional pieces. -/
abbrev Board := List (List (Option Piece))

/-- One inner dictionary of `_current_pieces_on_board`:
keys King, Queen, Rook, Bishop, Knight, Pawn. -/
structure KindCounts where
  king : Int
  queen : Int
  rook : Int
  bishop : Int
  knight : Int
  pawn : Int
deriving DecidableEq

/-- Dictionary lookup by piece kind. -/
def KindCounts.get (d : KindCounts) : Kind → Int
  | Kind.King => d.king
  | Kind.Queen => d.queen
  | Kind.Rook => d.rook
  | Kind.Bishop => d.bishop
  | Kind.Knight => d.knight
  | Kind.Pawn => d.pawn

/-- The `.values()` view of the inner dictionary, in insertion order. -/
def KindCounts.values (d : KindCounts) : List Int :=
  [d.king, d.queen, d.rook, d.bishop, d.knight, d.pawn]

/-- Decrement the entry for one kind (`d[piece_name] -= 1`). -/
def KindCounts.dec (d : KindCounts) : Kind → KindCounts
  | Kind.King => { d with king := d.king - 1 }
  | Kind.Queen => { d with queen := d.queen - 1 }
  | Kind.Rook => { d with rook := d.rook - 1 }
  | Kind.Bishop => { d with bishop := d.bishop - 1 }
  | Kind.Knight => { d with knight := d.knight - 1 }
  | Kind.Pawn => { d with pawn := d.pawn - 1 }

/-- The outer dictionary `_current_pieces_on_board`: keys WHITE, BLACK. -/
structure PiecesOnBoard where
  white : KindCounts
  black : KindCounts
deriving DecidableEq

/-- Dictionary lookup by color. -/
def PiecesOnBoard.get (d : PiecesOnBoard) : Color → KindCounts
  | Color.WHITE => d.white
  | Color.BLACK => d.black

/-- Update the inner dictionary of one color. -/
def PiecesOnBoard.setColor (d : PiecesOnBoard) : Color → KindCounts → PiecesOnBoard
  | Color.WHITE, v => { d with white := v }
  | Color.BLACK, v => { d with black := v }

/-- The `ChessBoard` class: `_board` and `_current_pieces_on_board`. -/
structure ChessBoard where
  board : Board
  current_pieces_on_board : PiecesOnBoard
deriving DecidableEq

/-- Abbreviations for the pieces used in the initial layout. -/
def bR : Option Piece := some ⟨Color.BLACK, Kind.Rook⟩
def bN : Option Piece := some ⟨Color.BLACK, Kind.Knight⟩
def bB : Option Piece := some ⟨Color.BLACK, Kind.Bishop⟩
def bQ : Option Piece := some ⟨Color.BLACK, Kind.Queen⟩
def bK : Option Piece := some ⟨Color.BLACK, Kind.King⟩
def bP : Option Piece := some ⟨Color.BLACK, Kind.Pawn⟩
def wR : Option Piece := some ⟨Color.WHITE, Kind.Rook⟩
def wN : Option Piece := some ⟨Color.WHITE, Kind.Knight⟩
def wB : Option Piece := some ⟨Color.WHITE, Kind.Bishop⟩
def wQ : Option Piece := some ⟨Color.WHITE, Kind.Queen⟩
def wK : Option Piece := some ⟨Color.WHITE, Kind.King⟩
def wP : Option Piece := some ⟨Color.WHITE, Kind.Pawn⟩

/-- The initial `_board` of `ChessBoard.__init__`. -/
def initial_board : Board :=
  [[bR, bN, bB, bQ, bK, bB, bN, bR],
   [bP, bP, bP, bP, bP, bP, bP, bP],
   [none, none, none, none, none, none, none, none],
   [none, none, none, none, none, none, none, none],
   [none, none, none, none, none, none, none, none],
   [none, none, none, none, none, none, none, none],
   [wP, wP, wP, wP, wP, wP, wP, wP],
   [wR, wN, wB, wQ, wK, wB, wN, wR]]

/-- The initial `_current_pieces_on_board` of `ChessBoard.__init__`. -/
def initial_pieces_on_board : PiecesOnBoard :=
  { white := { king := 1, queen := 1, rook := 2, bishop := 2, knight := 2, pawn := 8 }
    black := { king := 1, queen := 1, rook := 2, bishop := 2, knight := 2, pawn := 8 } }

/-- Result of `ChessBoard.__init__`. -/
def ChessBoard.init : ChessBoard :=
  { board := initial_board, current_pieces_on_board := initial_pieces_on_board }

/-- Method `get_piece_at`: `self._board[row][col]`.  At the call sites
reached by the engine both indices are in range; out-of-range reads
are mapped to `none`. -/
def ChessBoard.get_piece_at (self : ChessBoard) (row col : Nat) : Option Piece :=
  (self.board.getD row []).getD col none

/-- Method `remove_piece_from_board`:
`self._current_pieces_on_board[color][piece_name] -= 1`. -/
def ChessBoard.remove_piece_from_board (self : ChessBoard) (color : Color)
    (piece_name : Kind) : ChessBoard :=
  let d := self.current_pieces_on_board
  { self with current_pieces_on_board := d.setColor color ((d.get color).dec piece_name) }

/-- Method `move_piece`: capture whatever sits on the destination square,
then relocate the moved piece and clear the source square. -/
def ChessBoard.move_piece (self : ChessBoard)
    (from_row from_col to_row to_col : Nat) : ChessBoard :=
  let piece_at_to_square := self.get_piece_at to_row to_col
  let self1 :=
    match piece_at_to_square with
    | some q => self.remove_piece_from_board q.color q.kind
    | none => self
  let moved := self.get_piece_at from_row from_col
  let b1 := self1.board.set to_row ((self1.board.getD to_row []).set to_col moved)
  let b2 := b1.set from_row ((b1.getD from_row []).set from_col none)
  { self1 with board := b2 }

/-- Advance one coordinate one square in a direction: `some true` is the
increasing direction, `some false` the decreasing one, `none` stays put. -/
def stepToward (x : Nat) : Option Bool → Nat
  | none => x
  | some true => x + 1
  | some false => x - 1

/-- The loop body shared by the three `check_*_path` methods of `Piece`:
starting at `(r, c)`, step `n` times one square toward the destination and
require each visited square to be empty.  `n` is the number of squares
strictly between the endpoints, so the loop stops one short of `to`. -/
def pathClear (board_object : ChessBoard) (r c : Nat)
    (rowDir colDir : Option Bool) : Nat → Bool
  | 0 => true
  | Nat.succ n =>
    match board_object.get_piece_at (stepToward r rowDir) (stepToward c colDir) with
    | none =>
      pathClear board_object (stepToward r rowDir) (stepToward c colDir) rowDir colDir n
    | some _ => false

/-- Method `Piece.check_horizontal_path`: walk column by column from
`from_col` toward `to_col` along row `from_row`. -/
def check_horizontal_path (board_object : ChessBoard)
    (from_row from_col to_col : Nat) : Bool :=
  if from_col < to_col then
    pathClear board_object from_row from_col none (some true) (to_col - from_col - 1)
  else if to_col < from_col then
    pathClear board_object from_row from_col none (some false) (from_col - to_col - 1)
  else true

/-- Method `Piece.check_vertical_path`: walk row by row from `from_row`
toward `to_row` along column `from_col`. -/
def check_vertical_path (board_object : ChessBoard)
    (from_row from_col to_row : Nat) : Bool :=
  if from_row < to_row then
    pathClear board_object from_row from_col (some true) none (to_row - from_row - 1)
  else if to_row < from_row then
    pathClear board_object from_row from_col (some false) none (from_row - to_row - 1)
  else true

/-- Method `Piece.check_diagonal_path`: the four direction branches of the
source, each walking diagonally one square at a time, with the loop counter
driven by the column distance exactly as in the source. -/
def check_diagonal_path (board_object : ChessBoard)
    (from_row from_col to_row to_col : Nat) : Bool :=
  if from_row > to_row ∧ from_col < to_col then
    pathClear board_object from_row from_col (some false) (some true) (to_col - from_col - 1)
  else if from_row < to_row ∧ from_col < to_col then
    pathClear board_object from_row from_col (some true) (some true) (to_col - from_col - 1)
  else if from_row < to_row ∧ from_col > to_col then
    pathClear board_object from_row from_col (some true) (some false) (from_col - to_col - 1)
  else if from_row > to_row ∧ from_col > to_col then
    pathClear board_object from_row from_col (some false) (some false) (from_col - to_col - 1)
  else true

/-- Method `Piece.is_valid_move` of the base class: the from-square piece
(`self`) must belong to the player whose turn it is, and the to-square must
not hold a piece of that same color. -/
def base_is_valid_move (self : Piece) (board_object : ChessBoard) (turn : Color)
    (_from_row _from_col to_row to_col : Nat) : Bool :=
  if self.color ≠ turn then false
  else
    match board_object.get_piece_at to_row to_col with
    | some piece_at_to_square => if piece_at_to_square.color = turn then false else true
    | none => true

/-- Method `King.is_valid_move`: base check, then at most one square in
each direction. -/
def king_is_valid_move (self : Piece) (board_object : ChessBoard) (turn : Color)
    (from_row from_col to_row to_col : Nat) : Bool :=
  if ¬ base_is_valid_move self board_object turn from_row from_col to_row to_col then false
  else if ((to_col : Int) - from_col).natAbs > 1 ∨ ((to_row : Int) - from_row).natAbs > 1 then
    false
  else true

/-- Method `Rook.is_valid_move`: base check, then a clear horizontal or
vertical path. -/
def rook_is_valid_move (self : Piece) (board_object : ChessBoard) (turn : Color)
    (from_row from_col to_row to_col : Nat) : Bool :=
  if ¬ base_is_valid_move self board_object turn from_row from_col to_row to_col then false
  else if to_row = from_row then
    check_horizontal_path board_object from_row from_col to_col
  else if to_col = from_col then
    check_vertical_path board_object from_row from_col to_row
  else false

/-- Method `Bishop.is_valid_move`: base check, then a clear diagonal path. -/
def bishop_is_valid_move (self : Piece) (board_object : ChessBoard) (turn : Color)
    (from_row from_col to_row to_col : Nat) : Bool :=
  if ¬ base_is_valid_move self board_object turn from_row from_col to_row to_col then false
  else if ((to_col : Int) - from_col).natAbs = ((to_row : Int) - from_row).natAbs then
    check_diagonal_path board_object from_row from_col to_row to_col
  else false

/-- Method `Queen.is_valid_move`: base check, then a clear horizontal,
vertical, or diagonal path. -/
def queen_is_valid_move (self : Piece) (board_object : ChessBoard) (turn : Color)
    (from_row from_col to_row to_col : Nat) : Bool :=
  if ¬ base_is_valid_move self board_object turn from_row from_col to_row to_col then false
  else if to_row = from_row then
    check_horizontal_path board_object from_row from_col to_col
  else if to_col = from_col then
    check_vertical_path board_object from_row from_col to_row
  else if ((to_col : Int) - from_col).natAbs = ((to_row : Int) - from_row).natAbs then
    check_diagonal_path board_object from_row from_col to_row to_col
  else false

/-- Method `Knight.is_valid_move`: base check, then the L-shape. -/
def knight_is_valid_move (self : Piece) (board_object : ChessBoard) (turn : Color)
    (from_row from_col to_row to_col : Nat) : Bool :=
  if ¬ base_is_valid_move self board_object turn from_row from_col to_row to_col then false
  else if ((to_row : Int) - from_row).natAbs = 1 ∧ ((to_col : Int) - from_col).natAbs = 2 then
    true
  else if ((to_row : Int) - from_row).natAbs = 2 ∧ ((to_col : Int) - from_col).natAbs = 1 then
    true
  else false

/-- Method `Pawn.is_valid_move`: base check, then the color-directed
single step, double step from the starting rank, and capture-only
diagonal, in the source's branch order.  Comparisons that Python performs
on possibly negative integers are done in `Int`. -/
def pawn_is_valid_move (self : Piece) (board_object : ChessBoard) (turn : Color)
    (from_row from_col to_row to_col : Nat) : Bool :=
  if ¬ base_is_valid_move self board_object turn from_row from_col to_row to_col then false
  else if turn = Color.BLACK then
    if (from_row : Int) + 1 = to_row ∧ (from_col : Int) = to_col then
      if board_object.get_piece_at to_row to_col ≠ none then false else true
    else if from_row = 1 ∧ to_row = 3 ∧ (from_col : Int) = to_col then
      if board_object.get_piece_at (from_row + 1) to_col ≠ none then false
      else if board_object.get_piece_at to_row to_col ≠ none then false
      else true
    else if ((from_row : Int) + 1 = to_row ∧ (from_col : Int) + 1 = to_col)
        ∨ ((from_row : Int) + 1 = to_row ∧ (from_col : Int) - 1 = to_col) then
      if board_object.get_piece_at to_row to_col = none then false else true
    else false
  else
    if (from_row : Int) - 1 = to_row ∧ (from_col : Int) = to_col then
      if board_object.get_piece_at to_row to_col ≠ none then false else true
    else if from_row = 6 ∧ to_row = 4 ∧ (from_col : Int) = to_col then
      if board_object.get_piece_at (from_row - 1) to_col ≠ none then false
      else if board_object.get_piece_at to_row to_col ≠ none then false
      else true
    else if ((from_row : Int) - 1 = to_row ∧ (from_col : Int) + 1 = to_col)
        ∨ ((from_row : Int) - 1 = to_row ∧ (from_col : Int) - 1 = to_col) then
      if board_object.get_piece_at to_row to_col = none then false else true
    else false

/-- Virtual dispatch on the piece's class. -/
def Piece.is_valid_move (self : Piece) (board_object : ChessBoard) (turn : Color)
    (from_row from_col to_row to_col : Nat) : Bool :=
  match self.kind with
  | Kind.King => king_is_valid_move self board_object turn from_row from_col to_row to_col
  | Kind.Queen => queen_is_valid_move self board_object turn from_row from_col to_row to_col
  | Kind.Rook => rook_is_valid_move self board_object turn from_row from_col to_row to_col
  | Kind.Bishop => bishop_is_valid_move self board_object turn from_row from_col to_row to_col
  | Kind.Knight => knight_is_valid_move self board_object turn from_row from_col to_row to_col
  | Kind.Pawn => pawn_is_valid_move self board_object turn from_row from_col to_row to_col

inductive GameState where
  | UNFINISHED
  | WHITE_WON
  | BLACK_WON
deriving DecidableEq

/-- The `ChessVar` class: `_game_board`, `_player_turn`, `_game_state`. -/
structure ChessVar where
  game_board : ChessBoard
  player_turn : Color
  game_state : GameState
deriving DecidableEq

/-- Result of `ChessVar.__init__`. -/
def ChessVar.init : ChessVar :=
  { game_board := ChessBoard.init
    player_turn := Color.WHITE
    game_state := GameState.UNFINISHED }

/-- Method `set_player_turn`: switch the turn between the two colors. -/
def set_player_turn (self : ChessVar) : ChessVar :=
  if self.player_turn = Color.WHITE then { self with player_turn := Color.BLACK }
  else { self with player_turn := Color.WHITE }

/-- Method `set_game_state`: first declare BLACK the winner if any white
count is 0, then declare WHITE the winner if any black count is 0, the
second write overwriting the first when both fire. -/
def set_game_state (self : ChessVar) : ChessVar :=
  let white_pieces := (self.game_board.current_pieces_on_board.get Color.WHITE).values
  let self1 :=
    if 0 ∈ white_pieces then { self with game_state := GameState.BLACK_WON } else self
  let black_pieces := (self1.game_board.current_pieces_on_board.get Color.BLACK).values
  if 0 ∈ black_pieces then { self1 with game_state := GameState.WHITE_WON } else self1

def valid_letters : List Char := ['A', 'B', 'C', 'D', 'E', 'F', 'G', 'H']

def valid_numbers : List Char := ['1', '2', '3', '4', '5', '6', '7', '8']

/-- Method `is_valid_input`: the two tokens must differ, and each must be
two characters, a file letter (case-insensitive) and a rank digit.  Tokens
are modelled as lists of characters; the out-of-range reads that Python
short-circuits away are made harmless with a default character. -/
def is_valid_input (from_square to_square : List Char) : Bool :=
  if from_square = to_square then false
  else if from_square.length ≠ 2
      ∨ (from_square.getD 0 ' ').toUpper ∉ valid_letters
      ∨ from_square.getD 1 ' ' ∉ valid_numbers then false
  else if to_square.length ≠ 2
      ∨ (to_square.getD 0 ' ').toUpper ∉ valid_letters
      ∨ to_square.getD 1 ' ' ∉ valid_numbers then false
  else true

/-- The `letter_to_index` dictionary of `algebraic_to_indices`; a missing
key is `none` (Python raises `KeyError`). -/
def letter_to_index : Char → Option Nat
  | 'A' => some 0
  | 'B' => some 1
  | 'C' => some 2
  | 'D' => some 3
  | 'E' => some 4
  | 'F' => some 5
  | 'G' => some 6
  | 'H' => some 7
  | _ => none

/-- The `number_to_index` dictionary of `algebraic_to_indices`. -/
def number_to_index : Char → Option Nat
  | '8' => some 0
  | '7' => some 1
  | '6' => some 2
  | '5' => some 3
  | '4' => some 4
  | '3' => some 5
  | '2' => some 6
  | '1' => some 7
  | _ => none

/-- Method `algebraic_to_indices`: returns `(row_index, col_index)`, or
`none` where Python would raise a `KeyError` or `IndexError`. -/
def algebraic_to_indices (square : List Char) : Option (Nat × Nat) :=
  match letter_to_index (square.getD 0 ' ').toUpper, number_to_index (square.getD 1 ' ') with
  | some col_index, some row_index => some (row_index, col_index)
  | _, _ => none

/-- Outcome of one `make_move` call: a returned boolean, or an uncaught
Python exception. -/
inductive MoveResult where
  | ok (b : Bool)
  | error
deriving DecidableEq

/-- Method `make_move`, with the source's exact sequence of checks:
game already won, input validation, notation conversion, an occupied
from-square, piece-specific legality; then the mutation sequence
`move_piece`, `set_game_state`, `set_player_turn`. -/
def make_move (self : ChessVar) (from_square to_square : List Char) :
    MoveResult × ChessVar :=
  if self.game_state ≠ GameState.UNFINISHED then (MoveResult.ok false, self)
  else if ¬ is_valid_input from_square to_square then (MoveResult.ok false, self)
  else
    match algebraic_to_indices from_square, algebraic_to_indices to_square with
    | some (from_row, from_col), some (to_row, to_col) =>
      match self.game_board.get_piece_at from_row from_col with
      | none => (MoveResult.ok false, self)
      | some piece_to_move =>
        if ¬ piece_to_move.is_valid_move self.game_board self.player_turn
            from_row from_col to_row to_col then
          (MoveResult.ok false, self)
        else
          let moved := { self with
            game_board := self.game_board.move_piece from_row from_col to_row to_col }
          (MoveResult.ok true, set_player_turn (set_game_state moved))
    | _, _ => (MoveResult.error, self)

/-- Play a list of `(from_square, to_square)` requests in order. -/
def runMoves (self : ChessVar) (moves : List (List Char × List Char)) : ChessVar :=
  moves.foldl (fun g m => (make_move g m.1 m.2).2) self

/-- Whether a board square holds a piece of the given color and kind. -/
def pieceMatches (c : Color) (k : Kind) : Option Piece → Bool
  | some p => p.color = c ∧ p.kind = k
  | none => false

/-- Number of pieces of one color and kind present on the grid. -/
def countPieces (b : Board) (c : Color) (k : Kind) : Nat :=
  (b.map (fun row => row.countP (pieceMatches c k))).sum

/-- The grid is 8 rows of 8 squares. -/
def WFBoard (b : Board) : Prop :=
  b.length = 8 ∧ ∀ row ∈ b, row.length = 8

/-- Advance a coordinate `k` squares in a direction (the `k`-fold iterate
of `stepToward`); used to index the squares a `pathClear` walk visits. -/
def stepN (x : Nat) (d : Option Bool) (k : Nat) : Nat :=
  match d with
  | none => x
  | some true => x + k
  | some false => x - k

/-- Spec-side predicate, following the spec words for the pawn: a single
forward step (same column, one row in the color forward direction) onto an
empty destination. -/
def pawn_spec_single (bo : ChessBoard) (turn : Color) (fr fc tr tc : Nat) : Prop :=
  tc = fc
    ∧ (tr : Int) = fr + (if turn = Color.BLACK then 1 else -1)
    ∧ bo.get_piece_at tr tc = none

/-- Spec-side predicate, following the spec words for the pawn: a double
forward step from the color starting rank (row 1 for BLACK, row 6 for
WHITE) to the rank two ahead, with the intermediate square and the
destination both empty. -/
def pawn_spec_double (bo : ChessBoard) (turn : Color) (fr fc tr tc : Nat) : Prop :=
  fr = (if turn = Color.BLACK then 1 else 6)
    ∧ (tr : Int) = fr + 2 * (if turn = Color.BLACK then 1 else -1)
    ∧ tc = fc
    ∧ bo.get_piece_at (if turn = Color.BLACK then fr + 1 else fr - 1) tc = none
    ∧ bo.get_piece_at tr tc = none

/-- Spec-side predicate, following the spec words for the pawn: a diagonal
forward step (one column sideways, one row forward) onto a square occupied
by an opposing piece. -/
def pawn_spec_diag (bo : ChessBoard) (turn : Color) (fr fc tr tc : Nat) : Prop :=
  (tr : Int) = fr + (if turn = Color.BLACK then 1 else -1)
    ∧ ((tc : Int) = fc + 1 ∨ (tc : Int) = fc - 1)
    ∧ ∃ q, bo.get_piece_at tr tc = some q ∧ q.color ≠ turn

/-- The bookkeeping invariant of the board: the grid is 8 by 8 and every
stored count equals the number of matching pieces on the grid. -/
def CountsInv (g : ChessVar) : Prop :=
  WFBoard g.game_board.board
    ∧ ∀ (c : Color) (k : Kind),
        ((g.game_board.current_pieces_on_board.get c).get k)
          = (countPieces g.game_board.board c k : Int)

/-! ## Lemmas about the path walkers -/

theorem stepN_one (x : Nat) (d : Option Bool) : stepN x d 1 = stepToward x d := by
  cases d with
  | none => rfl
  | some b => cases b <;> rfl

theorem stepN_succ (x : Nat) (d : Option Bool) (k : Nat) :
    stepN (stepToward x d) d k = stepN x d (k + 1) := by
  cases d with
  | none => rfl
  | some b => cases b <;> simp [stepN, stepToward] <;> omega

theorem pathClear_iff (bo : ChessBoard) (rd cd : Option Bool) :
    ∀ (n r c : Nat),
      pathClear bo r c rd cd n = true ↔
        ∀ i : Nat, i < n →
          bo.get_piece_at (stepN r rd (i + 1)) (stepN c cd (i + 1)) = none := by
  intro n
  induction n with
  | zero => intro r c; simp [pathClear]
  | succ n ih =>
    intro r c
    simp only [pathClear]
    cases h : bo.get_piece_at (stepToward r rd) (stepToward c cd) with
    | some p =>
      constructor
      · intro hF
        simp at hF
      · intro H
        have h0 := H 0 (Nat.succ_pos n)
        rw [stepN_one, stepN_one, h] at h0
        exact absurd h0 (by simp)
    | none =>
      rw [ih]
      constructor
      · intro H i hi
        match i with
        | 0 => rw [stepN_one, stepN_one]; exact h
        | Nat.succ j =>
          have := H j (by omega)
          rwa [stepN_succ, stepN_succ] at this
      · intro H j hj
        rw [stepN_succ, stepN_succ]
        exact H (j + 1) (by omega)

theorem check_horizontal_path_iff (bo : ChessBoard) (fr fc tc : Nat) :
    check_horizontal_path bo fr fc tc = true ↔
      ∀ c : Nat, min fc tc < c → c < max fc tc → bo.get_piece_at fr c = none := by
  unfold check_horizontal_path
  rcases lt_trichotomy fc tc with h | h | h
  · rw [if_pos h, pathClear_iff]
    constructor
    · intro H c h1 h2
      have h3 := H (c - fc - 1) (by omega)
      simp only [stepN] at h3
      rw [show fc + (c - fc - 1 + 1) = c by omega] at h3
      exact h3
    · intro H i hi
      simp only [stepN]
      exact H (fc + (i + 1)) (by omega) (by omega)
  · rw [if_neg (by omega), if_neg (by omega)]
    constructor
    · intro _ c h1 h2
      exfalso; omega
    · intro _; rfl
  · rw [if_neg (by omega), if_pos h, pathClear_iff]
    constructor
    · intro H c h1 h2
      have h3 := H (fc - c - 1) (by omega)
      simp only [stepN] at h3
      rw [show fc - (fc - c - 1 + 1) = c by omega] at h3
      exact h3
    · intro H i hi
      simp only [stepN]
      exact H (fc - (i + 1)) (by omega) (by omega)

theorem check_vertical_path_iff (bo : ChessBoard) (fr fc tr : Nat) :
    check_vertical_path bo fr fc tr = true ↔
      ∀ r : Nat, min fr tr < r → r < max fr tr → bo.get_piece_at r fc = none := by
  unfold check_vertical_path
  rcases lt_trichotomy fr tr with h | h | h
  · rw [if_pos h, pathClear_iff]
    constructor
    · intro H r h1 h2
      have h3 := H (r - fr - 1) (by omega)
      simp only [stepN] at h3
      rw [show fr + (r - fr - 1 + 1) = r by omega] at h3
      exact h3
    · intro H i hi
      simp only [stepN]
      exact H (fr + (i + 1)) (by omega) (by omega)
  · rw [if_neg (by omega), if_neg (by omega)]
    constructor
    · intro _ r h1 h2
      exfalso; omega
    · intro _; rfl
  · rw [if_neg (by omega), if_pos h, pathClear_iff]
    constructor
    · intro H r h1 h2
      have h3 := H (fr - r - 1) (by omega)
      simp only [stepN] at h3
      rw [show fr - (fr - r - 1 + 1) = r by omega] at h3
      exact h3
    · intro H i hi
      simp only [stepN]
      exact H (fr - (i + 1)) (by omega) (by omega)

theorem check_diagonal_path_iff (bo : ChessBoard) (fr fc tr tc : Nat)
    (halign : ((tr : Int) - fr).natAbs = ((tc : Int) - fc).natAbs) :
    check_diagonal_path bo fr fc tr tc = true ↔
      ∀ i : Nat, 0 < i → i < ((tc : Int) - fc).natAbs →
        bo.get_piece_at (if fr < tr then fr + i else fr - i)
          (if fc < tc then fc + i else fc - i) = none := by
  unfold check_diagonal_path
  split_ifs <;> try rw [pathClear_iff]
  all_goals
    constructor
  all_goals
    first
    | (intro H i hi0 hin
       first
       | (exfalso; omega)
       | (have h5 := H (i - 1) (by omega)
          simp only [stepN] at h5
          rw [show i - 1 + 1 = i by omega] at h5
          exact h5))
    | (intro H
       first
       | rfl
       | (intro i hi
          first
          | (exfalso; omega)
          | (simp only [stepN]
             exact H (i + 1) (by omega) (by omega))))

/-! ## The shared color precondition -/

theorem base_is_valid_move_iff (self : Piece) (bo : ChessBoard) (turn : Color)
    (fr fc tr tc : Nat) :
    base_is_valid_move self bo turn fr fc tr tc = true ↔
      (self.color = turn ∧ ∀ q, bo.get_piece_at tr tc = some q → q.color ≠ turn) := by
  unfold base_is_valid_move
  cases hq : bo.get_piece_at tr tc with
  | none =>
    split_ifs with h1
    · simp [h1]
    · push_neg at h1
      simp [h1]
  | some q =>
    split_ifs with h1
    · simp [h1]
    · push_neg at h1
      by_cases hc : q.color = turn
      · simp [hc, h1]
      · simp [hc, h1]

/-- C9: with a King of the moving color on the from-square,
`King.is_valid_move` accepts exactly the moves whose destination holds no
piece of the moving color, whose Chebyshev distance is at most 1, and
which are not the zero move. -/
theorem king_is_valid_move_iff (self : Piece) (bo : ChessBoard) (turn : Color)
    (fr fc tr tc : Nat)
    (hp : bo.get_piece_at fr fc = some self)
    (hk : self = ⟨turn, Kind.King⟩) :
    self.is_valid_move bo turn fr fc tr tc = true ↔
      ((∀ q, bo.get_piece_at tr tc = some q → q.color ≠ turn)
        ∧ max ((tr : Int) - fr).natAbs ((tc : Int) - fc).natAbs ≤ 1
        ∧ (fr, fc) ≠ (tr, tc)) := by
  subst hk
  show king_is_valid_move _ bo turn fr fc tr tc = true ↔ _
  unfold king_is_valid_move
  by_cases hb : base_is_valid_move ⟨turn, Kind.King⟩ bo turn fr fc tr tc = true
  · rw [if_neg (by simp [hb])]
    have hdest := ((base_is_valid_move_iff _ bo turn fr fc tr tc).mp hb).2
    have hne : (fr, fc) ≠ (tr, tc) := by
      intro he
      rw [Prod.mk.injEq] at he
      refine hdest ⟨turn, Kind.King⟩ ?_ rfl
      rw [← he.1, ← he.2]
      exact hp
    split_ifs with hgt
    · simp only [Bool.false_eq_true, false_iff, not_and]
      intro _ hmax
      exact absurd hmax (by omega)
    · simp only [true_iff]
      exact ⟨hdest, by omega, hne⟩
  · rw [if_pos (by simpa using hb)]
    simp only [Bool.false_eq_true, false_iff, not_and]
    intro hdest
    exact absurd ((base_is_valid_move_iff _ bo turn fr fc tr tc).mpr ⟨rfl, hdest⟩) hb

/-- C7: with a Pawn of the moving color on the from-square and the shared
color precondition satisfied, `Pawn.is_valid_move` accepts exactly the
single forward step onto an empty square, the double step from the
starting rank over two empty squares, and the diagonal forward capture;
the three shapes are pairwise incompatible, so exactly one of them holds
for an accepted move. -/
theorem pawn_is_valid_move_iff (self : Piece) (bo : ChessBoard) (turn : Color)
    (fr fc tr tc : Nat)
    (hp : bo.get_piece_at fr fc = some self)
    (hk : self = ⟨turn, Kind.Pawn⟩)
    (hbase : base_is_valid_move self bo turn fr fc tr tc = true) :
    (self.is_valid_move bo turn fr fc tr tc = true ↔
      (pawn_spec_single bo turn fr fc tr tc
        ∨ pawn_spec_double bo turn fr fc tr tc
        ∨ pawn_spec_diag bo turn fr fc tr tc))
    ∧ ¬(pawn_spec_single bo turn fr fc tr tc ∧ pawn_spec_double bo turn fr fc tr tc)
    ∧ ¬(pawn_spec_single bo turn fr fc tr tc ∧ pawn_spec_diag bo turn fr fc tr tc)
    ∧ ¬(pawn_spec_double bo turn fr fc tr tc ∧ pawn_spec_diag bo turn fr fc tr tc) := by
  subst hk
  have hdest := ((base_is_valid_move_iff _ bo turn fr fc tr tc).mp hbase).2
  refine ⟨?_, ?_, ?_, ?_⟩
  case refine_2 =>
    rintro ⟨⟨-, e2, -⟩, ⟨-, f2, -, -, -⟩⟩
    cases turn <;> simp only [reduceCtorEq, reduceIte] at e2 f2 <;> omega
  case refine_3 =>
    rintro ⟨⟨e1, -, -⟩, ⟨-, f2, -⟩⟩
    rcases f2 with f2 | f2 <;> omega
  case refine_4 =>
    rintro ⟨⟨-, e2, -, -, -⟩, ⟨f1, -, -⟩⟩
    cases turn <;> simp only [reduceCtorEq, reduceIte] at e2 f1 <;> omega
  show pawn_is_valid_move _ bo turn fr fc tr tc = true ↔ _
  unfold pawn_is_valid_move
  rw [if_neg (by simp [hbase])]
  unfold pawn_spec_single pawn_spec_double pawn_spec_diag
  cases turn with
  | BLACK =>
    rw [if_pos rfl]
    simp only [reduceCtorEq, reduceIte]
    by_cases h1 : ((fr : Int) + 1 = tr ∧ (fc : Int) = tc)
    · rw [if_pos h1]
      cases hq : bo.get_piece_at tr tc with
      | some q =>
        rw [if_pos (by simp)]
        simp only [Bool.false_eq_true, false_iff]
        rintro (⟨-, -, e3⟩ | ⟨-, f2, -, -, -⟩ | ⟨-, g2, -⟩)
        · cases e3
        · omega
        · omega
      | none =>
        rw [if_neg (by simp)]
        simp only [true_iff]
        exact Or.inl ⟨by omega, by omega, trivial⟩
    · by_cases h2 : (fr = 1 ∧ tr = 3 ∧ (fc : Int) = tc)
      · rw [if_neg h1, if_pos h2]
        cases hm : bo.get_piece_at (fr + 1) tc with
        | some q =>
          rw [if_pos (by simp)]
          simp only [Bool.false_eq_true, false_iff]
          rintro (⟨-, e2, -⟩ | ⟨-, -, -, f4, -⟩ | ⟨g1, -, -⟩)
          · omega
          · cases f4
          · omega
        | none =>
          rw [if_neg (by simp)]
          cases hq : bo.get_piece_at tr tc with
          | some q =>
            rw [if_pos (by simp)]
            simp only [Bool.false_eq_true, false_iff]
            rintro (⟨-, e2, -⟩ | ⟨-, -, -, -, f5⟩ | ⟨g1, -, -⟩)
            · omega
            · cases f5
            · omega
          | none =>
            rw [if_neg (by simp)]
            simp only [true_iff]
            exact Or.inr (Or.inl ⟨h2.1, by omega, by omega, trivial, trivial⟩)
      · by_cases h3 : (((fr : Int) + 1 = tr ∧ (fc : Int) + 1 = tc)
            ∨ ((fr : Int) + 1 = tr ∧ (fc : Int) - 1 = tc))
        · rw [if_neg h1, if_neg h2, if_pos h3]
          cases hq : bo.get_piece_at tr tc with
          | none =>
            rw [if_pos (by simp)]
            simp only [Bool.false_eq_true, false_iff]
            rintro (⟨e1, -, -⟩ | ⟨f1, -, f3, -, -⟩ | ⟨-, -, q, g3, -⟩)
            · rcases h3 with ⟨-, h3b⟩ | ⟨-, h3b⟩ <;> omega
            · rcases h3 with ⟨h3a, -⟩ | ⟨h3a, -⟩ <;> exact h1 ⟨by omega, by omega⟩
            · cases g3
          | some q =>
            rw [if_neg (by simp)]
            simp only [true_iff]
            refine Or.inr (Or.inr ⟨?_, ?_, q, by trivial, hdest q hq⟩)
            · rcases h3 with ⟨h3a, -⟩ | ⟨h3a, -⟩ <;> omega
            · rcases h3 with ⟨-, h3b⟩ | ⟨-, h3b⟩
              · exact Or.inl (by omega)
              · exact Or.inr (by omega)
        · rw [if_neg h1, if_neg h2, if_neg h3]
          simp only [Bool.false_eq_true, false_iff]
          rintro (⟨e1, e2, -⟩ | ⟨f1, f2, f3, -, -⟩ | ⟨g1, g2, -⟩)
          · exact h1 ⟨by omega, by omega⟩
          · exact h2 ⟨f1, by omega, by omega⟩
          · rcases g2 with g2 | g2
            · exact h3 (Or.inl ⟨by omega, by omega⟩)
            · exact h3 (Or.inr ⟨by omega, by omega⟩)
  | WHITE =>
    rw [if_neg (by decide)]
    simp only [reduceCtorEq, reduceIte]
    by_cases h1 : ((fr : Int) - 1 = tr ∧ (fc : Int) = tc)
    · rw [if_pos h1]
      cases hq : bo.get_piece_at tr tc with
      | some q =>
        rw [if_pos (by simp)]
        simp only [Bool.false_eq_true, false_iff]
        rintro (⟨-, -, e3⟩ | ⟨-, f2, -, -, -⟩ | ⟨-, g2, -⟩)
        · cases e3
        · omega
        · omega
      | none =>
        rw [if_neg (by simp)]
        simp only [true_iff]
        exact Or.inl ⟨by omega, by omega, trivial⟩
    · by_cases h2 : (fr = 6 ∧ tr = 4 ∧ (fc : Int) = tc)
      · rw [if_neg h1, if_pos h2]
        cases hm : bo.get_piece_at (fr - 1) tc with
        | some q =>
          rw [if_pos (by simp)]
          simp only [Bool.false_eq_true, false_iff]
          rintro (⟨-, e2, -⟩ | ⟨-, -, -, f4, -⟩ | ⟨g1, -, -⟩)
          · omega
          · cases f4
          · omega
        | none =>
          rw [if_neg (by simp)]
          cases hq : bo.get_piece_at tr tc with
          | some q =>
            rw [if_pos (by simp)]
            simp only [Bool.false_eq_true, false_iff]
            rintro (⟨-, e2, -⟩ | ⟨-, -, -, -, f5⟩ | ⟨g1, -, -⟩)
            · omega
            · cases f5
            · omega
          | none =>
            rw [if_neg (by simp)]
            simp only [true_iff]
            exact Or.inr (Or.inl ⟨h2.1, by omega, by omega, trivial, trivial⟩)
      · by_cases h3 : (((fr : Int) - 1 = tr ∧ (fc : Int) + 1 = tc)
            ∨ ((fr : Int) - 1 = tr ∧ (fc : Int) - 1 = tc))
        · rw [if_neg h1, if_neg h2, if_pos h3]
          cases hq : bo.get_piece_at tr tc with
          | none =>
            rw [if_pos (by simp)]
            simp only [Bool.false_eq_true, false_iff]
            rintro (⟨e1, -, -⟩ | ⟨f1, -, f3, -, -⟩ | ⟨-, -, q, g3, -⟩)
            · rcases h3 with ⟨-, h3b⟩ | ⟨-, h3b⟩ <;> omega
            · rcases h3 with ⟨h3a, -⟩ | ⟨h3a, -⟩ <;> exact h1 ⟨by omega, by omega⟩
            · cases g3
          | some q =>
            rw [if_neg (by simp)]
            simp only [true_iff]
            refine Or.inr (Or.inr ⟨?_, ?_, q, by trivial, hdest q hq⟩)
            · rcases h3 with ⟨h3a, -⟩ | ⟨h3a, -⟩ <;> omega
            · rcases h3 with ⟨-, h3b⟩ | ⟨-, h3b⟩
              · exact Or.inl (by omega)
              · exact Or.inr (by omega)
        · rw [if_neg h1, if_neg h2, if_neg h3]
          simp only [Bool.false_eq_true, false_iff]
          rintro (⟨e1, e2, -⟩ | ⟨f1, f2, f3, -, -⟩ | ⟨g1, g2, -⟩)
          · exact h1 ⟨by omega, by omega⟩
          · exact h2 ⟨f1, by omega, by omega⟩
          · rcases g2 with g2 | g2
            · exact h3 (Or.inl ⟨by omega, by omega⟩)
            · exact h3 (Or.inr ⟨by omega, by omega⟩)

/-- C8: a Rook move along its rank, or along its file, is rejected
whenever some square strictly between the endpoints is occupied, while a
Knight L-move is accepted with no condition on any square other than the
endpoints; and each sliding path check accepts exactly when every square
strictly between the endpoints is unoccupied. -/
theorem path_obstruction_semantics :
    (∀ (bo : ChessBoard) (self : Piece) (turn : Color) (fr fc tr tc c : Nat),
        self.kind = Kind.Rook → tr = fr →
        min fc tc < c → c < max fc tc → bo.get_piece_at fr c ≠ none →
        self.is_valid_move bo turn fr fc tr tc = false)
    ∧ (∀ (bo : ChessBoard) (self : Piece) (turn : Color) (fr fc tr tc r : Nat),
        self.kind = Kind.Rook → tc = fc →
        min fr tr < r → r < max fr tr → bo.get_piece_at r fc ≠ none →
        self.is_valid_move bo turn fr fc tr tc = false)
    ∧ (∀ (bo : ChessBoard) (turn : Color) (fr fc tr tc : Nat),
        ((((tr : Int) - fr).natAbs = 1 ∧ ((tc : Int) - fc).natAbs = 2)
          ∨ (((tr : Int) - fr).natAbs = 2 ∧ ((tc : Int) - fc).natAbs = 1)) →
        (∀ q, bo.get_piece_at tr tc = some q → q.color ≠ turn) →
        Piece.is_valid_move ⟨turn, Kind.Knight⟩ bo turn fr fc tr tc = true)
    ∧ (∀ (bo : ChessBoard) (fr fc tc : Nat),
        check_horizontal_path bo fr fc tc = true ↔
          ∀ c : Nat, min fc tc < c → c < max fc tc → bo.get_piece_at fr c = none)
    ∧ (∀ (bo : ChessBoard) (fr fc tr : Nat),
        check_vertical_path bo fr fc tr = true ↔
          ∀ r : Nat, min fr tr < r → r < max fr tr → bo.get_piece_at r fc = none)
    ∧ (∀ (bo : ChessBoard) (fr fc tr tc : Nat),
        ((tr : Int) - fr).natAbs = ((tc : Int) - fc).natAbs →
        (check_diagonal_path bo fr fc tr tc = true ↔
          ∀ i : Nat, 0 < i → i < ((tc : Int) - fc).natAbs →
            bo.get_piece_at (if fr < tr then fr + i else fr - i)
              (if fc < tc then fc + i else fc - i) = none)) := by
  refine ⟨?_, ?_, ?_, check_horizontal_path_iff, check_vertical_path_iff,
    check_diagonal_path_iff⟩
  · intro bo self turn fr fc tr tc c hk htr h1 h2 hocc
    obtain ⟨cl, k⟩ := self
    dsimp at hk
    subst hk
    show rook_is_valid_move _ bo turn fr fc tr tc = false
    unfold rook_is_valid_move
    by_cases hb : base_is_valid_move ⟨cl, Kind.Rook⟩ bo turn fr fc tr tc = true
    · rw [if_neg (by simp [hb]), if_pos htr]
      cases hch : check_horizontal_path bo fr fc tc with
      | false => rfl
      | true => exact absurd ((check_horizontal_path_iff bo fr fc tc).mp hch c h1 h2) hocc
    · rw [if_pos (by simpa using hb)]
  · intro bo self turn fr fc tr tc r hk htc h1 h2 hocc
    obtain ⟨cl, k⟩ := self
    dsimp at hk
    subst hk
    show rook_is_valid_move _ bo turn fr fc tr tc = false
    unfold rook_is_valid_move
    by_cases hb : base_is_valid_move ⟨cl, Kind.Rook⟩ bo turn fr fc tr tc = true
    · have hne : tr ≠ fr := by omega
      rw [if_neg (by simp [hb]), if_neg hne, if_pos htc]
      cases hch : check_vertical_path bo fr fc tr with
      | false => rfl
      | true => exact absurd ((check_vertical_path_iff bo fr fc tr).mp hch r h1 h2) hocc
    · rw [if_pos (by simpa using hb)]
  · intro bo turn fr fc tr tc hshape hdest
    show knight_is_valid_move _ bo turn fr fc tr tc = true
    unfold knight_is_valid_move
    have hb : base_is_valid_move ⟨turn, Kind.Knight⟩ bo turn fr fc tr tc = true :=
      (base_is_valid_move_iff ⟨turn, Kind.Knight⟩ bo turn fr fc tr tc).mpr ⟨rfl, hdest⟩
    rw [if_neg (by simp [hb])]
    rcases hshape with ⟨ha, hb⟩ | ⟨ha, hb⟩
    · rw [if_pos ⟨ha, hb⟩]
    · rw [if_neg (by omega), if_pos ⟨ha, hb⟩]

/-- Witness for C8 on the initial board: the A8 rook cannot slide to D8
through the B8 knight on its rank, nor to A6 through the A7 pawn on its
file; the B1 knight jumps to C3 over the pawn rank; and the three path
checks instantiate on concrete squares. -/
theorem path_obstruction_semantics_witness :
    (Piece.is_valid_move ⟨Color.BLACK, Kind.Rook⟩ ChessBoard.init Color.BLACK 0 0 0 3 = false)
    ∧ (Piece.is_valid_move ⟨Color.BLACK, Kind.Rook⟩ ChessBoard.init Color.BLACK 0 0 2 0 = false)
    ∧ (Piece.is_valid_move ⟨Color.WHITE, Kind.Knight⟩ ChessBoard.init Color.WHITE 7 1 5 2 = true)
    ∧ (check_horizontal_path ChessBoard.init 0 0 3 = true ↔
        ∀ c : Nat, min 0 3 < c → c < max 0 3 → ChessBoard.init.get_piece_at 0 c = none)
    ∧ (check_vertical_path ChessBoard.init 7 0 5 = true ↔
        ∀ r : Nat, min 7 5 < r → r < max 7 5 → ChessBoard.init.get_piece_at r 0 = none)
    ∧ (check_diagonal_path ChessBoard.init 7 2 5 4 = true ↔
        ∀ i : Nat, 0 < i → i < ((4 : Int) - 2).natAbs →
          ChessBoard.init.get_piece_at (if 7 < 5 then 7 + i else 7 - i)
            (if 2 < 4 then 2 + i else 2 - i) = none) :=
  ⟨path_obstruction_semantics.1 ChessBoard.init ⟨Color.BLACK, Kind.Rook⟩ Color.BLACK
      0 0 0 3 1 rfl rfl (by decide) (by decide) (by decide),
    path_obstruction_semantics.2.1 ChessBoard.init ⟨Color.BLACK, Kind.Rook⟩ Color.BLACK
      0 0 2 0 1 rfl rfl (by decide) (by decide) (by decide),
    path_obstruction_semantics.2.2.1 ChessBoard.init Color.WHITE 7 1 5 2
      (by decide) (by decide),
    path_obstruction_semantics.2.2.2.1 ChessBoard.init 0 0 3,
    path_obstruction_semantics.2.2.2.2.1 ChessBoard.init 7 0 5,
    path_obstruction_semantics.2.2.2.2.2 ChessBoard.init 7 2 5 4 (by decide)⟩

/-- Witness for C9 on the initial board: the white king on E1 and the
square E2, with every hypothesis discharged concretely. -/
theorem king_is_valid_move_iff_witness :
    ChessBoard.init.get_piece_at 7 4 = some ⟨Color.WHITE, Kind.King⟩
    ∧ (Piece.is_valid_move ⟨Color.WHITE, Kind.King⟩ ChessBoard.init Color.WHITE 7 4 6 4 = true ↔
        ((∀ q, ChessBoard.init.get_piece_at 6 4 = some q → q.color ≠ Color.WHITE)
          ∧ max (((6 : Nat) : Int) - ((7 : Nat) : Nat)).natAbs
              ((((4 : Nat)) : Int) - ((4 : Nat) : Nat)).natAbs ≤ 1
          ∧ ((7 : Nat), (4 : Nat)) ≠ ((6 : Nat), (4 : Nat)))) :=
  ⟨by decide,
    king_is_valid_move_iff ⟨Color.WHITE, Kind.King⟩ ChessBoard.init Color.WHITE
      7 4 6 4 (by decide) rfl⟩

/-- Witness for C7 on the initial board: the white pawn on E2 and the
double-step target E4, with every hypothesis discharged concretely. -/
theorem pawn_is_valid_move_iff_witness :
    ChessBoard.init.get_piece_at 6 4 = some ⟨Color.WHITE, Kind.Pawn⟩
    ∧ base_is_valid_move ⟨Color.WHITE, Kind.Pawn⟩ ChessBoard.init Color.WHITE 6 4 4 4 = true
    ∧ ((Piece.is_valid_move ⟨Color.WHITE, Kind.Pawn⟩ ChessBoard.init Color.WHITE 6 4 4 4 = true ↔
        (pawn_spec_single ChessBoard.init Color.WHITE 6 4 4 4
          ∨ pawn_spec_double ChessBoard.init Color.WHITE 6 4 4 4
          ∨ pawn_spec_diag ChessBoard.init Color.WHITE 6 4 4 4))
      ∧ ¬(pawn_spec_single ChessBoard.init Color.WHITE 6 4 4 4
          ∧ pawn_spec_double ChessBoard.init Color.WHITE 6 4 4 4)
      ∧ ¬(pawn_spec_single ChessBoard.init Color.WHITE 6 4 4 4
          ∧ pawn_spec_diag ChessBoard.init Color.WHITE 6 4 4 4)
      ∧ ¬(pawn_spec_double ChessBoard.init Color.WHITE 6 4 4 4
          ∧ pawn_spec_diag ChessBoard.init Color.WHITE 6 4 4 4)) :=
  ⟨by decide, by decide,
    pawn_is_valid_move_iff ⟨Color.WHITE, Kind.Pawn⟩ ChessBoard.init Color.WHITE
      6 4 4 4 (by decide) rfl (by decide)⟩

/-! ## Structure of one `make_move` call -/

theorem set_game_state_player_turn (g : ChessVar) :
    (set_game_state g).player_turn = g.player_turn := by
  by_cases hw : 0 ∈ (g.game_board.current_pieces_on_board.get Color.WHITE).values <;>
    by_cases hb : 0 ∈ (g.game_board.current_pieces_on_board.get Color.BLACK).values <;>
    simp [set_game_state, hw, hb]

theorem set_game_state_game_board (g : ChessVar) :
    (set_game_state g).game_board = g.game_board := by
  by_cases hw : 0 ∈ (g.game_board.current_pieces_on_board.get Color.WHITE).values <;>
    by_cases hb : 0 ∈ (g.game_board.current_pieces_on_board.get Color.BLACK).values <;>
    simp [set_game_state, hw, hb]

theorem set_player_turn_player_turn (g : ChessVar) :
    (set_player_turn g).player_turn =
      (if g.player_turn = Color.WHITE then Color.BLACK else Color.WHITE) := by
  unfold set_player_turn
  split_ifs <;> rfl

theorem set_player_turn_game_board (g : ChessVar) :
    (set_player_turn g).game_board = g.game_board := by
  unfold set_player_turn
  split_ifs <;> rfl

theorem set_player_turn_game_state (g : ChessVar) :
    (set_player_turn g).game_state = g.game_state := by
  unfold set_player_turn
  split_ifs <;> rfl

theorem set_game_state_game_state (g : ChessVar) :
    (set_game_state g).game_state =
      (if 0 ∈ (g.game_board.current_pieces_on_board.get Color.BLACK).values then
        GameState.WHITE_WON
      else if 0 ∈ (g.game_board.current_pieces_on_board.get Color.WHITE).values then
        GameState.BLACK_WON
      else g.game_state) := by
  unfold set_game_state
  by_cases hw : 0 ∈ (g.game_board.current_pieces_on_board.get Color.WHITE).values <;>
    by_cases hb : 0 ∈ (g.game_board.current_pieces_on_board.get Color.BLACK).values <;>
    simp [hw, hb]

/-- Every call of `make_move` either rejects and returns the state
untouched, errors and returns the state untouched, or passes every check
and applies the mutation sequence of the source. -/
theorem make_move_shape (g : ChessVar) (fs ts : List Char) :
    make_move g fs ts = (MoveResult.ok false, g)
    ∨ (is_valid_input fs ts = true
        ∧ (algebraic_to_indices fs = none ∨ algebraic_to_indices ts = none)
        ∧ make_move g fs ts = (MoveResult.error, g))
    ∨ ∃ fr fc tr tc p,
        g.game_state = GameState.UNFINISHED
        ∧ is_valid_input fs ts = true
        ∧ algebraic_to_indices fs = some (fr, fc)
        ∧ algebraic_to_indices ts = some (tr, tc)
        ∧ g.game_board.get_piece_at fr fc = some p
        ∧ p.is_valid_move g.game_board g.player_turn fr fc tr tc = true
        ∧ make_move g fs ts =
            (MoveResult.ok true,
              set_player_turn (set_game_state
                { g with game_board := g.game_board.move_piece fr fc tr tc })) := by
  unfold make_move
  by_cases h1 : g.game_state = GameState.UNFINISHED
  case neg =>
    rw [if_pos h1]
    exact Or.inl rfl
  rw [if_neg (by simp [h1])]
  by_cases h2 : is_valid_input fs ts = true
  case neg =>
    rw [if_pos (by simpa using h2)]
    exact Or.inl rfl
  rw [if_neg (by simp [h2])]
  cases ha : algebraic_to_indices fs with
  | none => exact Or.inr (Or.inl ⟨h2, Or.inl rfl, rfl⟩)
  | some rc =>
    obtain ⟨fr, fc⟩ := rc
    cases hb : algebraic_to_indices ts with
    | none => exact Or.inr (Or.inl ⟨h2, Or.inr rfl, rfl⟩)
    | some rc2 =>
      obtain ⟨tr, tc⟩ := rc2
      dsimp only
      cases hp : g.game_board.get_piece_at fr fc with
      | none => exact Or.inl rfl
      | some p =>
        dsimp only
        by_cases hv : p.is_valid_move g.game_board g.player_turn fr fc tr tc = true
        case neg =>
          rw [if_pos (by simpa using hv)]
          exact Or.inl rfl
        rw [if_neg (by simp [hv])]
        exact Or.inr (Or.inr ⟨fr, fc, tr, tc, p, h1, h2, rfl, rfl, hp, hv, rfl⟩)

/-- C3: a rejected `make_move` call (returning `False`) leaves the whole
game object unchanged, so repeating the same invalid input gives the same
rejection from the identical state. -/
theorem make_move_reject_frame (g : ChessVar) (fs ts : List Char)
    (h : (make_move g fs ts).1 = MoveResult.ok false) :
    (make_move g fs ts).2 = g
    ∧ make_move ((make_move g fs ts).2) fs ts = make_move g fs ts := by
  rcases make_move_shape g fs ts with he | ⟨-, -, he⟩ | ⟨fr, fc, tr, tc, p, -, -, -, -, -, -, he⟩
  · have h2 : (make_move g fs ts).2 = g := by rw [he]
    refine ⟨h2, ?_⟩
    rw [h2]
  · rw [he] at h
    cases h
  · rw [he] at h
    cases h

/-- Witness for C3: the fresh game rejects moving from an empty square,
twice in a row, without any state change. -/
theorem make_move_reject_frame_witness :
    (make_move ChessVar.init (['E', '3']) (['E', '4'])).1 = MoveResult.ok false
    ∧ (make_move ChessVar.init (['E', '3']) (['E', '4'])).2 = ChessVar.init
    ∧ make_move ((make_move ChessVar.init (['E', '3']) (['E', '4'])).2) (['E', '3']) (['E', '4'])
        = make_move ChessVar.init (['E', '3']) (['E', '4']) :=
  ⟨by decide,
    (make_move_reject_frame ChessVar.init (['E', '3']) (['E', '4']) (by decide)).1,
    (make_move_reject_frame ChessVar.init (['E', '3']) (['E', '4']) (by decide)).2⟩

/-- C5: the game state never changes on a rejected call; an applied call
can only move it from UNFINISHED to a WON value; and once the state is
not UNFINISHED every later call, and hence any whole sequence of calls,
returns `False` and leaves the game untouched. -/
theorem game_state_monotone :
    (∀ (g : ChessVar) (fs ts : List Char), g.game_state ≠ GameState.UNFINISHED →
      make_move g fs ts = (MoveResult.ok false, g))
    ∧ (∀ (g : ChessVar) (fs ts : List Char),
        (make_move g fs ts).2.game_state ≠ g.game_state →
        g.game_state = GameState.UNFINISHED
          ∧ ((make_move g fs ts).2.game_state = GameState.WHITE_WON
            ∨ (make_move g fs ts).2.game_state = GameState.BLACK_WON))
    ∧ (∀ (g : ChessVar) (ms : List (List Char × List Char)),
        g.game_state ≠ GameState.UNFINISHED → runMoves g ms = g) := by
  have hrej : ∀ (g : ChessVar) (fs ts : List Char), g.game_state ≠ GameState.UNFINISHED →
      make_move g fs ts = (MoveResult.ok false, g) := by
    intro g fs ts h
    unfold make_move
    rw [if_pos h]
  refine ⟨hrej, ?_, ?_⟩
  · intro g fs ts hne
    rcases make_move_shape g fs ts with he | ⟨-, -, he⟩ |
      ⟨fr, fc, tr, tc, p, h1, -, -, -, -, -, he⟩
    · rw [he] at hne
      exact absurd rfl hne
    · rw [he] at hne
      exact absurd rfl hne
    · refine ⟨h1, ?_⟩
      rw [he] at hne ⊢
      dsimp at hne ⊢
      rw [set_player_turn_game_state, set_game_state_game_state] at hne ⊢
      dsimp at hne ⊢
      split_ifs with hB hW
      · left; rfl
      · right; rfl
      · rw [if_neg hB, if_neg hW] at hne
        exact absurd rfl hne
  · intro g ms h
    induction ms with
    | nil => rfl
    | cons m ms ih =>
      show runMoves (make_move g m.1 m.2).2 ms = g
      rw [hrej g m.1 m.2 h]
      exact ih

/-- Witness for C5: a game marked WHITE_WON rejects a further move and a
two-move batch; and the real winning capture (knight takes the last black
queen) moves the state from UNFINISHED to WHITE_WON. -/
theorem game_state_monotone_witness :
    (make_move ⟨ChessBoard.init, Color.WHITE, GameState.WHITE_WON⟩ (['E', '2']) (['E', '4'])
        = (MoveResult.ok false, ⟨ChessBoard.init, Color.WHITE, GameState.WHITE_WON⟩))
    ∧ (runMoves ⟨ChessBoard.init, Color.WHITE, GameState.WHITE_WON⟩
        [((['E', '2']), (['E', '4'])), ((['E', '7']), (['E', '5']))]
        = ⟨ChessBoard.init, Color.WHITE, GameState.WHITE_WON⟩)
    ∧ ((runMoves ChessVar.init
          [((['E', '2']), (['E', '4'])), ((['D', '7']), (['D', '5'])),
           ((['E', '4']), (['D', '5'])), ((['D', '8']), (['D', '5'])),
           ((['B', '1']), (['C', '3'])), ((['A', '7']), (['A', '6']))]).game_state
          = GameState.UNFINISHED
      ∧ ((make_move (runMoves ChessVar.init
            [((['E', '2']), (['E', '4'])), ((['D', '7']), (['D', '5'])),
             ((['E', '4']), (['D', '5'])), ((['D', '8']), (['D', '5'])),
             ((['B', '1']), (['C', '3'])), ((['A', '7']), (['A', '6']))])
            (['C', '3']) (['D', '5'])).2.game_state = GameState.WHITE_WON
        ∨ (make_move (runMoves ChessVar.init
            [((['E', '2']), (['E', '4'])), ((['D', '7']), (['D', '5'])),
             ((['E', '4']), (['D', '5'])), ((['D', '8']), (['D', '5'])),
             ((['B', '1']), (['C', '3'])), ((['A', '7']), (['A', '6']))])
            (['C', '3']) (['D', '5'])).2.game_state = GameState.BLACK_WON)) :=
  ⟨game_state_monotone.1 _ _ _ (by decide),
    game_state_monotone.2.2 _ _ (by decide),
    game_state_monotone.2.1 _ (['C', '3']) (['D', '5']) (by decide)⟩

/-- C6 counterexample: in a real game reachable from the fresh start, the
white knight captures the last black queen; `make_move` returns `True`,
the state becomes WHITE_WON, and the player turn still flips from WHITE
to BLACK, where the claim requires it to stay WHITE. -/
theorem turn_unchanged_on_win_counterexample :
    (make_move (runMoves ChessVar.init
        [((['E', '2']), (['E', '4'])), ((['D', '7']), (['D', '5'])),
         ((['E', '4']), (['D', '5'])), ((['D', '8']), (['D', '5'])),
         ((['B', '1']), (['C', '3'])), ((['A', '7']), (['A', '6']))])
        (['C', '3']) (['D', '5'])).1 = MoveResult.ok true
    ∧ (runMoves ChessVar.init
        [((['E', '2']), (['E', '4'])), ((['D', '7']), (['D', '5'])),
         ((['E', '4']), (['D', '5'])), ((['D', '8']), (['D', '5'])),
         ((['B', '1']), (['C', '3'])), ((['A', '7']), (['A', '6']))]).player_turn
        = Color.WHITE
    ∧ (make_move (runMoves ChessVar.init
        [((['E', '2']), (['E', '4'])), ((['D', '7']), (['D', '5'])),
         ((['E', '4']), (['D', '5'])), ((['D', '8']), (['D', '5'])),
         ((['B', '1']), (['C', '3'])), ((['A', '7']), (['A', '6']))])
        (['C', '3']) (['D', '5'])).2.game_state = GameState.WHITE_WON
    ∧ (make_move (runMoves ChessVar.init
        [((['E', '2']), (['E', '4'])), ((['D', '7']), (['D', '5'])),
         ((['E', '4']), (['D', '5'])), ((['D', '8']), (['D', '5'])),
         ((['B', '1']), (['C', '3'])), ((['A', '7']), (['A', '6']))])
        (['C', '3']) (['D', '5'])).2.player_turn = Color.BLACK := by
  refine ⟨by decide, by decide, by decide, by decide⟩

/-- C6 (amended): after every applied move the player turn flips to the
other color, whether or not the move decided the game. -/
theorem turn_flips_after_applied_move (g : ChessVar) (fs ts : List Char)
    (h : (make_move g fs ts).1 = MoveResult.ok true) :
    (make_move g fs ts).2.player_turn =
      (if g.player_turn = Color.WHITE then Color.BLACK else Color.WHITE) := by
  rcases make_move_shape g fs ts with he | ⟨-, -, he⟩ |
    ⟨fr, fc, tr, tc, p, -, -, -, -, -, -, he⟩
  · rw [he] at h
    cases h
  · rw [he] at h
    cases h
  · rw [he]
    dsimp
    rw [set_player_turn_player_turn, set_game_state_player_turn]

/-- Witness for C6 (amended): the opening double pawn step flips the turn
from WHITE to BLACK. -/
theorem turn_flips_after_applied_move_witness :
    (make_move ChessVar.init (['E', '2']) (['E', '4'])).1 = MoveResult.ok true
    ∧ (make_move ChessVar.init (['E', '2']) (['E', '4'])).2.player_turn =
        (if ChessVar.init.player_turn = Color.WHITE then Color.BLACK else Color.WHITE) :=
  ⟨by decide, turn_flips_after_applied_move ChessVar.init (['E', '2']) (['E', '4']) (by decide)⟩

theorem zero_mem_values_iff (d : KindCounts) : 0 ∈ d.values ↔ ∃ k, d.get k = 0 := by
  constructor
  · intro h
    simp only [KindCounts.values, List.mem_cons, List.not_mem_nil, or_false] at h
    rcases h with h | h | h | h | h | h
    · exact ⟨Kind.King, h.symm⟩
    · exact ⟨Kind.Queen, h.symm⟩
    · exact ⟨Kind.Rook, h.symm⟩
    · exact ⟨Kind.Bishop, h.symm⟩
    · exact ⟨Kind.Knight, h.symm⟩
    · exact ⟨Kind.Pawn, h.symm⟩
  · rintro ⟨k, hk⟩
    cases k <;> simp only [KindCounts.get] at hk <;>
      simp [KindCounts.values, hk.symm]

/-- C1: whenever `make_move` applies a move, the resulting game state is
exactly the recomputation from the piece counts after the move: WHITE_WON
if some black count is zero, else BLACK_WON if some white count is zero,
else still UNFINISHED. -/
theorem make_move_recomputes_state (g : ChessVar) (fs ts : List Char)
    (h : (make_move g fs ts).1 = MoveResult.ok true) :
    (make_move g fs ts).2.game_state =
      (if ∃ k, (((make_move g fs ts).2.game_board.current_pieces_on_board.get
            Color.BLACK).get k) = 0 then
        GameState.WHITE_WON
      else if ∃ k, (((make_move g fs ts).2.game_board.current_pieces_on_board.get
            Color.WHITE).get k) = 0 then
        GameState.BLACK_WON
      else GameState.UNFINISHED) := by
  rcases make_move_shape g fs ts with he | ⟨-, -, he⟩ |
    ⟨fr, fc, tr, tc, p, h1, -, -, -, -, -, he⟩
  · rw [he] at h
    cases h
  · rw [he] at h
    cases h
  · rw [he]
    dsimp
    rw [set_player_turn_game_state, set_player_turn_game_board,
      set_game_state_game_state, set_game_state_game_board]
    dsimp
    by_cases hB : ∃ k,
        (((g.game_board.move_piece fr fc tr tc).current_pieces_on_board.get
          Color.BLACK).get k) = 0
    · rw [if_pos ((zero_mem_values_iff _).mpr hB), if_pos hB]
    · rw [if_neg (fun hm => hB ((zero_mem_values_iff _).mp hm)), if_neg hB]
      by_cases hW : ∃ k,
          (((g.game_board.move_piece fr fc tr tc).current_pieces_on_board.get
            Color.WHITE).get k) = 0
      · rw [if_pos ((zero_mem_values_iff _).mpr hW), if_pos hW]
      · rw [if_neg (fun hm => hW ((zero_mem_values_iff _).mp hm)), if_neg hW]
        exact h1

/-- Witness for C1: both on the quiet opening move (no capture, state
stays UNFINISHED) and with every hypothesis discharged concretely. -/
theorem make_move_recomputes_state_witness :
    (make_move ChessVar.init (['E', '2']) (['E', '4'])).1 = MoveResult.ok true
    ∧ (make_move ChessVar.init (['E', '2']) (['E', '4'])).2.game_state =
      (if ∃ k, (((make_move ChessVar.init (['E', '2']) (['E', '4'])).2.game_board.current_pieces_on_board.get
            Color.BLACK).get k) = 0 then
        GameState.WHITE_WON
      else if ∃ k, (((make_move ChessVar.init (['E', '2']) (['E', '4'])).2.game_board.current_pieces_on_board.get
            Color.WHITE).get k) = 0 then
        GameState.BLACK_WON
      else GameState.UNFINISHED) :=
  ⟨by decide,
    make_move_recomputes_state ChessVar.init (['E', '2']) (['E', '4']) (by decide)⟩

/-! ## Input validation and totality -/

theorem letter_to_index_of_mem (ch : Char) (h : ch ∈ valid_letters) :
    ∃ c, letter_to_index ch = some c ∧ c < 8 := by
  fin_cases h <;> exact ⟨_, rfl, by omega⟩

theorem number_to_index_of_mem (ch : Char) (h : ch ∈ valid_numbers) :
    ∃ r, number_to_index ch = some r ∧ r < 8 := by
  fin_cases h <;> exact ⟨_, rfl, by omega⟩

theorem is_valid_input_decompose (fs ts : List Char) (h : is_valid_input fs ts = true) :
    fs.length = 2 ∧ (fs.getD 0 ' ').toUpper ∈ valid_letters ∧ fs.getD 1 ' ' ∈ valid_numbers
    ∧ ts.length = 2 ∧ (ts.getD 0 ' ').toUpper ∈ valid_letters
    ∧ ts.getD 1 ' ' ∈ valid_numbers := by
  unfold is_valid_input at h
  split_ifs at h with h1 h2 h3
  all_goals simp only [Bool.false_eq_true] at h
  push_neg at h2 h3
  exact ⟨h2.1, h2.2.1, h2.2.2, h3.1, h3.2.1, h3.2.2⟩

theorem valid_input_indices (fs ts : List Char) (h : is_valid_input fs ts = true) :
    ∃ fr fc tr tc, algebraic_to_indices fs = some (fr, fc)
      ∧ algebraic_to_indices ts = some (tr, tc)
      ∧ fr < 8 ∧ fc < 8 ∧ tr < 8 ∧ tc < 8 := by
  obtain ⟨-, hl1, hn1, -, hl2, hn2⟩ := is_valid_input_decompose fs ts h
  obtain ⟨c1, hc1, hc1b⟩ := letter_to_index_of_mem _ hl1
  obtain ⟨r1, hr1, hr1b⟩ := number_to_index_of_mem _ hn1
  obtain ⟨c2, hc2, hc2b⟩ := letter_to_index_of_mem _ hl2
  obtain ⟨r2, hr2, hr2b⟩ := number_to_index_of_mem _ hn2
  refine ⟨r1, c1, r2, c2, ?_, ?_, hr1b, hc1b, hr2b, hc2b⟩
  · unfold algebraic_to_indices
    rw [hc1, hr1]
  · unfold algebraic_to_indices
    rw [hc2, hr2]

/-- C10: `make_move` always returns a boolean (the embedded error outcome
standing for a Python exception is unreachable), because notation
conversion runs only after validation succeeds and then always yields row
and column indices inside the 8 by 8 board. -/
theorem make_move_total :
    (∀ (g : ChessVar) (fs ts : List Char), ∃ b, (make_move g fs ts).1 = MoveResult.ok b)
    ∧ (∀ (fs ts : List Char), is_valid_input fs ts = true →
        ∃ fr fc tr tc, algebraic_to_indices fs = some (fr, fc)
          ∧ algebraic_to_indices ts = some (tr, tc)
          ∧ fr < 8 ∧ fc < 8 ∧ tr < 8 ∧ tc < 8) := by
  refine ⟨?_, valid_input_indices⟩
  intro g fs ts
  rcases make_move_shape g fs ts with he | ⟨hval, hnone, -⟩ |
    ⟨fr, fc, tr, tc, p, -, -, -, -, -, -, he⟩
  · exact ⟨false, by rw [he]⟩
  · obtain ⟨fr, fc, tr, tc, ha, hb, -⟩ := valid_input_indices fs ts hval
    rcases hnone with hn | hn
    · rw [ha] at hn
      cases hn
    · rw [hb] at hn
      cases hn
  · exact ⟨true, by rw [he]⟩

/-- Witness for C10: a malformed token and a well-formed pair, both with
the hypotheses discharged concretely. -/
theorem make_move_total_witness :
    (∃ b, (make_move ChessVar.init (['Z', '9', '9']) ([])).1 = MoveResult.ok b)
    ∧ is_valid_input (['E', '2']) (['E', '4']) = true
    ∧ (∃ fr fc tr tc, algebraic_to_indices (['E', '2']) = some (fr, fc)
        ∧ algebraic_to_indices (['E', '4']) = some (tr, tc)
        ∧ fr < 8 ∧ fc < 8 ∧ tr < 8 ∧ tc < 8) :=
  ⟨make_move_total.1 ChessVar.init (['Z', '9', '9']) ([]),
    by decide,
    make_move_total.2 (['E', '2']) (['E', '4']) (by decide)⟩

/-! ## Counting pieces on the grid -/

theorem getD_cons_zero {α : Type} (hd : α) (tl : List α) (d : α) :
    (hd :: tl).getD 0 d = hd := rfl

theorem getD_cons_succ {α : Type} (hd : α) (tl : List α) (j : Nat) (d : α) :
    (hd :: tl).getD (j + 1) d = tl.getD j d := rfl

theorem countP_set_getD {α : Type} (p : α → Bool) (d : α) :
    ∀ (l : List α) (i : Nat) (a : α), i < l.length →
      (l.set i a).countP p + (if p (l.getD i d) then 1 else 0)
        = l.countP p + (if p a then 1 else 0) := by
  intro l
  induction l with
  | nil => intro i a h; cases h
  | cons hd tl ih =>
    intro i a h
    cases i with
    | zero =>
      simp only [List.set, List.countP_cons, getD_cons_zero]
      omega
    | succ j =>
      have := ih j a (by simpa using h)
      simp only [List.set, List.countP_cons, getD_cons_succ]
      omega

theorem sum_map_set_getD {α : Type} (f : α → Nat) (d : α) :
    ∀ (l : List α) (i : Nat) (a : α), i < l.length →
      ((l.set i a).map f).sum + f (l.getD i d)
        = (l.map f).sum + f a := by
  intro l
  induction l with
  | nil => intro i a h; cases h
  | cons hd tl ih =>
    intro i a h
    cases i with
    | zero =>
      simp only [List.set, List.map_cons, List.sum_cons, getD_cons_zero]
      omega
    | succ j =>
      have := ih j a (by simpa using h)
      simp only [List.set, List.map_cons, List.sum_cons, getD_cons_succ]
      omega

theorem getD_set_self {α : Type} (l : List α) (i : Nat) (a d : α) (h : i < l.length) :
    (l.set i a).getD i d = a := by
  simp [List.getD, List.getElem?_set_self, h]

theorem getD_set_ne {α : Type} (l : List α) (i j : Nat) (a d : α) (h : i ≠ j) :
    (l.set i a).getD j d = l.getD j d := by
  simp [List.getD, List.getElem?_set_ne h]

theorem row_length (b : Board) (hwf : WFBoard b) (r : Nat) (hr : r < 8) :
    (b.getD r []).length = 8 := by
  have hb : r < b.length := by
    rw [hwf.1]
    exact hr
  rw [List.getD_eq_getElem b [] hb]
  exact hwf.2 _ (List.getElem_mem hb)

theorem WF_set_row (b : Board) (hwf : WFBoard b) (r : Nat) (row : List (Option Piece))
    (hrow : row.length = 8) : WFBoard (b.set r row) := by
  constructor
  · rw [List.length_set]
    exact hwf.1
  · intro x hx
    rcases List.mem_or_eq_of_mem_set hx with hx | hx
    · exact hwf.2 x hx
    · rw [hx]
      exact hrow

/-! ## Effect of `move_piece` -/

theorem move_piece_board_def (bo : ChessBoard) (fr fc tr tc : Nat) :
    (bo.move_piece fr fc tr tc).board
      = (bo.board.set tr ((bo.board.getD tr []).set tc (bo.get_piece_at fr fc))).set fr
          (((bo.board.set tr ((bo.board.getD tr []).set tc
              (bo.get_piece_at fr fc))).getD fr []).set fc none) := by
  unfold ChessBoard.move_piece
  cases bo.get_piece_at tr tc <;> rfl

theorem move_piece_counts_def (bo : ChessBoard) (fr fc tr tc : Nat) :
    (bo.move_piece fr fc tr tc).current_pieces_on_board
      = (match bo.get_piece_at tr tc with
        | some q =>
          bo.current_pieces_on_board.setColor q.color
            ((bo.current_pieces_on_board.get q.color).dec q.kind)
        | none => bo.current_pieces_on_board) := by
  unfold ChessBoard.move_piece ChessBoard.remove_piece_from_board
  cases bo.get_piece_at tr tc <;> rfl

theorem counts_dec_get (d : PiecesOnBoard) (qc : Color) (qk : Kind) (c : Color) (k : Kind) :
    ((d.setColor qc ((d.get qc).dec qk)).get c).get k
      = (d.get c).get k - (if c = qc ∧ k = qk then 1 else 0) := by
  cases qc <;> cases c <;> cases qk <;> cases k <;>
    simp [PiecesOnBoard.setColor, PiecesOnBoard.get, KindCounts.dec, KindCounts.get]

theorem move_piece_WF (bo : ChessBoard) (fr fc tr tc : Nat)
    (hwf : WFBoard bo.board) (hfr : fr < 8) (htr : tr < 8) :
    WFBoard (bo.move_piece fr fc tr tc).board := by
  rw [move_piece_board_def]
  have h1 : WFBoard (bo.board.set tr ((bo.board.getD tr []).set tc
      (bo.get_piece_at fr fc))) := by
    refine WF_set_row bo.board hwf tr _ ?_
    rw [List.length_set]
    exact row_length bo.board hwf tr htr
  refine WF_set_row _ h1 fr _ ?_
  rw [List.length_set]
  exact row_length _ h1 fr hfr

theorem move_piece_get (bo : ChessBoard) (fr fc tr tc : Nat)
    (hwf : WFBoard bo.board) (hfr : fr < 8) (hfc : fc < 8) (htr : tr < 8) (htc : tc < 8)
    (hne : (fr, fc) ≠ (tr, tc)) :
    (bo.move_piece fr fc tr tc).get_piece_at tr tc = bo.get_piece_at fr fc
    ∧ (bo.move_piece fr fc tr tc).get_piece_at fr fc = none := by
  have hbl : tr < bo.board.length := by
    rw [hwf.1]
    exact htr
  have hrowl : tc < (bo.board.getD tr []).length := by
    rw [row_length bo.board hwf tr htr]
    exact htc
  set mv := bo.get_piece_at fr fc with hmv
  set NR := (bo.board.getD tr []).set tc mv with hNR
  set b1 := bo.board.set tr NR with hb1
  have hb1wf : WFBoard b1 := by
    refine WF_set_row bo.board hwf tr NR ?_
    rw [hNR, List.length_set]
    exact row_length bo.board hwf tr htr
  have hb1l : fr < b1.length := by
    rw [hb1, List.length_set, hwf.1]
    exact hfr
  set R1 := b1.getD fr [] with hR1
  set b2 := b1.set fr (R1.set fc none) with hb2
  have hboard : (bo.move_piece fr fc tr tc).board = b2 := by
    rw [move_piece_board_def]
  unfold ChessBoard.get_piece_at
  rw [hboard]
  constructor
  · by_cases hrow : fr = tr
    · have hcol : fc ≠ tc := fun hc => hne (by rw [hrow, hc])
      have e1 : b2.getD tr [] = R1.set fc none := by
        rw [hb2, ← hrow]
        exact getD_set_self _ _ _ _ hb1l
      have e2 : R1 = NR := by
        rw [hR1, hb1, hrow]
        exact getD_set_self _ _ _ _ hbl
      rw [e1, e2, getD_set_ne _ _ _ _ _ hcol, hNR]
      exact getD_set_self _ _ _ _ hrowl
    · have e1 : b2.getD tr [] = b1.getD tr [] := by
        rw [hb2]
        exact getD_set_ne _ _ _ _ _ hrow
      have e2 : b1.getD tr [] = NR := by
        rw [hb1]
        exact getD_set_self _ _ _ _ hbl
      rw [e1, e2, hNR]
      exact getD_set_self _ _ _ _ hrowl
  · have e1 : b2.getD fr [] = R1.set fc none := by
      rw [hb2]
      exact getD_set_self _ _ _ _ hb1l
    have hR1len : fc < R1.length := by
      rw [hR1, row_length b1 hb1wf fr hfr]
      exact hfc
    rw [e1]
    exact getD_set_self _ _ _ _ hR1len

theorem move_piece_countPieces (bo : ChessBoard) (fr fc tr tc : Nat)
    (hwf : WFBoard bo.board) (hfr : fr < 8) (hfc : fc < 8) (htr : tr < 8) (htc : tc < 8)
    (hne : (fr, fc) ≠ (tr, tc)) (c : Color) (k : Kind) :
    countPieces (bo.move_piece fr fc tr tc).board c k
        + (if pieceMatches c k (bo.get_piece_at tr tc) then 1 else 0)
      = countPieces bo.board c k := by
  have hbl : tr < bo.board.length := by
    rw [hwf.1]
    exact htr
  have hrowl : tc < (bo.board.getD tr []).length := by
    rw [row_length bo.board hwf tr htr]
    exact htc
  have hb1wf : WFBoard (bo.board.set tr ((bo.board.getD tr []).set tc (bo.get_piece_at fr fc))) := by
    refine WF_set_row bo.board hwf tr _ ?_
    rw [List.length_set]
    exact row_length bo.board hwf tr htr
  have hb1l : fr < ((bo.board.set tr ((bo.board.getD tr []).set tc (bo.get_piece_at fr fc)))).length := by
    rw [List.length_set, hwf.1]
    exact hfr
  have hrow1l : fc < (((bo.board.set tr ((bo.board.getD tr []).set tc (bo.get_piece_at fr fc)))).getD fr []).length := by
    rw [row_length _ hb1wf fr hfr]
    exact hfc
  have hA : countPieces (bo.board.set tr ((bo.board.getD tr []).set tc (bo.get_piece_at fr fc))) c k
        + ((bo.board.getD tr []).countP (pieceMatches c k))
      = countPieces bo.board c k
        + (((bo.board.getD tr []).set tc (bo.get_piece_at fr fc)).countP (pieceMatches c k)) :=
    sum_map_set_getD _ _ _ _ _ hbl
  have hB : ((bo.board.getD tr []).set tc (bo.get_piece_at fr fc)).countP (pieceMatches c k)
        + (if pieceMatches c k (bo.get_piece_at tr tc) then 1 else 0)
      = (bo.board.getD tr []).countP (pieceMatches c k)
        + (if pieceMatches c k (bo.get_piece_at fr fc) then 1 else 0) :=
    countP_set_getD _ _ _ _ _ hrowl
  have hC : countPieces (((bo.board.set tr ((bo.board.getD tr []).set tc (bo.get_piece_at fr fc)))).set fr ((((bo.board.set tr ((bo.board.getD tr []).set tc (bo.get_piece_at fr fc)))).getD fr []).set fc none)) c k
        + ((((bo.board.set tr ((bo.board.getD tr []).set tc (bo.get_piece_at fr fc)))).getD fr []).countP (pieceMatches c k))
      = countPieces (bo.board.set tr ((bo.board.getD tr []).set tc (bo.get_piece_at fr fc))) c k
        + (((((bo.board.set tr ((bo.board.getD tr []).set tc (bo.get_piece_at fr fc)))).getD fr []).set fc none).countP (pieceMatches c k)) :=
    sum_map_set_getD _ _ _ _ _ hb1l
  have hmid : (((bo.board.set tr ((bo.board.getD tr []).set tc (bo.get_piece_at fr fc)))).getD fr []).getD fc none = bo.get_piece_at fr fc := by
    by_cases hrow : fr = tr
    · have hcol : fc ≠ tc := fun hc => hne (by rw [hrow, hc])
      rw [← hrow, getD_set_self _ _ _ _ (by rw [hwf.1]; exact hfr),
        getD_set_ne _ _ _ _ _ (fun hc => hcol hc.symm)]
      rfl
    · rw [getD_set_ne _ _ _ _ _ (fun hc => hrow hc.symm)]
      rfl
  have hD0 := countP_set_getD (pieceMatches c k) (none : Option Piece)
    (((bo.board.set tr ((bo.board.getD tr []).set tc (bo.get_piece_at fr fc)))).getD fr []) fc none hrow1l
  rw [hmid] at hD0
  have hD : ((((bo.board.set tr ((bo.board.getD tr []).set tc (bo.get_piece_at fr fc)))).getD fr []).set fc none).countP (pieceMatches c k)
        + (if pieceMatches c k (bo.get_piece_at fr fc) then 1 else 0)
      = (((bo.board.set tr ((bo.board.getD tr []).set tc (bo.get_piece_at fr fc)))).getD fr []).countP (pieceMatches c k) := by
    rw [hD0]
    simp [pieceMatches]
  rw [move_piece_board_def]
  omega

theorem base_of_is_valid_move (p : Piece) (bo : ChessBoard) (turn : Color)
    (fr fc tr tc : Nat) (hv : p.is_valid_move bo turn fr fc tr tc = true) :
    base_is_valid_move p bo turn fr fc tr tc = true := by
  by_cases hb : base_is_valid_move p bo turn fr fc tr tc = true
  · exact hb
  · exfalso
    rw [Bool.not_eq_true] at hb
    obtain ⟨cl, kk⟩ := p
    cases kk <;>
      simp [Piece.is_valid_move, king_is_valid_move, queen_is_valid_move,
        rook_is_valid_move, bishop_is_valid_move, knight_is_valid_move,
        pawn_is_valid_move, hb] at hv

theorem valid_move_ne (p : Piece) (bo : ChessBoard) (turn : Color) (fr fc tr tc : Nat)
    (hp : bo.get_piece_at fr fc = some p)
    (hv : p.is_valid_move bo turn fr fc tr tc = true) :
    (fr, fc) ≠ (tr, tc) := by
  obtain ⟨hcol, hdest⟩ := (base_is_valid_move_iff p bo turn fr fc tr tc).mp
    (base_of_is_valid_move p bo turn fr fc tr tc hv)
  intro he
  rw [Prod.mk.injEq] at he
  refine hdest p ?_ hcol
  rw [← he.1, ← he.2]
  exact hp

/-- C2: a legal move puts the moved piece on the destination square,
clears the source square, and on a capture decrements exactly the captured
piece color/kind count by one, leaving every other count unchanged; with
an empty destination no count changes at all. -/
theorem move_piece_effect (bo : ChessBoard) (p : Piece) (turn : Color) (fr fc tr tc : Nat)
    (hwf : WFBoard bo.board) (hfr : fr < 8) (hfc : fc < 8) (htr : tr < 8) (htc : tc < 8)
    (hp : bo.get_piece_at fr fc = some p)
    (hv : p.is_valid_move bo turn fr fc tr tc = true) :
    (bo.move_piece fr fc tr tc).get_piece_at tr tc = some p
    ∧ (bo.move_piece fr fc tr tc).get_piece_at fr fc = none
    ∧ (∀ q, bo.get_piece_at tr tc = some q →
        ((((bo.move_piece fr fc tr tc).current_pieces_on_board.get q.color).get q.kind
            = ((bo.current_pieces_on_board.get q.color).get q.kind) - 1)
          ∧ ∀ (c : Color) (k : Kind), ¬(c = q.color ∧ k = q.kind) →
              (((bo.move_piece fr fc tr tc).current_pieces_on_board.get c).get k
                = ((bo.current_pieces_on_board.get c).get k))))
    ∧ (bo.get_piece_at tr tc = none →
        (bo.move_piece fr fc tr tc).current_pieces_on_board
          = bo.current_pieces_on_board) := by
  have hne := valid_move_ne p bo turn fr fc tr tc hp hv
  obtain ⟨h1, h2⟩ := move_piece_get bo fr fc tr tc hwf hfr hfc htr htc hne
  refine ⟨by rw [h1, hp], h2, ?_, ?_⟩
  · intro q hq
    rw [move_piece_counts_def, hq]
    dsimp only
    constructor
    · rw [counts_dec_get]
      simp
    · intro c k hck
      rw [counts_dec_get, if_neg hck]
      omega
  · intro hq
    rw [move_piece_counts_def, hq]

/-- Witness for C2: the opening knight jump B1 to C3 on the initial
board, with every hypothesis discharged concretely. -/
theorem move_piece_effect_witness :
    (ChessBoard.init.move_piece 7 1 5 2).get_piece_at 5 2
        = some ⟨Color.WHITE, Kind.Knight⟩
    ∧ (ChessBoard.init.move_piece 7 1 5 2).get_piece_at 7 1 = none
    ∧ (∀ q, ChessBoard.init.get_piece_at 5 2 = some q →
        ((((ChessBoard.init.move_piece 7 1 5 2).current_pieces_on_board.get q.color).get q.kind
            = ((ChessBoard.init.current_pieces_on_board.get q.color).get q.kind) - 1)
          ∧ ∀ (c : Color) (k : Kind), ¬(c = q.color ∧ k = q.kind) →
              (((ChessBoard.init.move_piece 7 1 5 2).current_pieces_on_board.get c).get k
                = ((ChessBoard.init.current_pieces_on_board.get c).get k))))
    ∧ (ChessBoard.init.get_piece_at 5 2 = none →
        (ChessBoard.init.move_piece 7 1 5 2).current_pieces_on_board
          = ChessBoard.init.current_pieces_on_board) :=
  move_piece_effect ChessBoard.init ⟨Color.WHITE, Kind.Knight⟩ Color.WHITE 7 1 5 2
    (by unfold WFBoard; decide) (by decide) (by decide) (by decide) (by decide)
    (by decide) (by decide)

/-! ## The count bookkeeping invariant -/

theorem counts_inv_step (g : ChessVar) (fs ts : List Char) (h : CountsInv g) :
    CountsInv (make_move g fs ts).2 := by
  rcases make_move_shape g fs ts with he | ⟨-, -, he⟩ |
    ⟨fr, fc, tr, tc, p, -, hval, ha, hb, hp, hv, he⟩
  · rw [he]
    exact h
  · rw [he]
    exact h
  · rw [he]
    obtain ⟨fr2, fc2, tr2, tc2, ha2, hb2, hb1, hb2b, hb3, hb4⟩ := valid_input_indices fs ts hval
    have hfr : fr < 8 ∧ fc < 8 := by
      have hx := ha2.symm.trans ha
      simp only [Option.some_inj, Prod.mk.injEq] at hx
      omega
    have htr : tr < 8 ∧ tc < 8 := by
      have hx := hb2.symm.trans hb
      simp only [Option.some_inj, Prod.mk.injEq] at hx
      omega
    have hne := valid_move_ne p g.game_board g.player_turn fr fc tr tc hp hv
    constructor
    · show WFBoard (set_player_turn (set_game_state _)).game_board.board
      rw [set_player_turn_game_board, set_game_state_game_board]
      exact move_piece_WF g.game_board fr fc tr tc h.1 hfr.1 htr.1
    · intro c k
      show ((set_player_turn (set_game_state _)).game_board.current_pieces_on_board.get c).get k = _
      rw [set_player_turn_game_board, set_game_state_game_board]
      dsimp only
      have hcount := move_piece_countPieces g.game_board fr fc tr tc h.1
        hfr.1 hfr.2 htr.1 htr.2 hne c k
      have h2ck := h.2 c k
      cases hq : g.game_board.get_piece_at tr tc with
      | none =>
        rw [move_piece_counts_def, hq]
        dsimp only
        rw [hq] at hcount
        simp only [pieceMatches, Bool.false_eq_true, if_false] at hcount
        omega
      | some q =>
        rw [move_piece_counts_def, hq]
        dsimp only
        rw [counts_dec_get]
        rw [hq] at hcount
        by_cases hm : c = q.color ∧ k = q.kind
        · rw [if_pos hm]
          have hmm : pieceMatches c k (some q) = true := by
            simp [pieceMatches, hm.1.symm, hm.2.symm]
          rw [hmm] at hcount
          simp only [if_pos] at hcount
          omega
        · rw [if_neg hm]
          have hmm : pieceMatches c k (some q) = false := by
            simp only [pieceMatches, decide_eq_false_iff_not]
            intro hx
            exact hm ⟨hx.1.symm, hx.2.symm⟩
          rw [hmm] at hcount
          simp only [Bool.false_eq_true, if_false] at hcount
          omega

theorem counts_inv_run (g : ChessVar) (ms : List (List Char × List Char))
    (h : CountsInv g) : CountsInv (runMoves g ms) := by
  induction ms generalizing g with
  | nil => exact h
  | cons m ms ih =>
    show CountsInv (runMoves (make_move g m.1 m.2).2 ms)
    exact ih _ (counts_inv_step g m.1 m.2 h)

/-- C4: in every game reachable from a fresh game by any sequence of
`make_move` calls, each stored count equals the number of pieces of that
color and kind on the 8 by 8 grid. -/
theorem counts_match_board (ms : List (List Char × List Char)) (c : Color) (k : Kind) :
    (((runMoves ChessVar.init ms).game_board.current_pieces_on_board.get c).get k)
      = (countPieces (runMoves ChessVar.init ms).game_board.board c k : Int) :=
  (counts_inv_run ChessVar.init ms (by unfold CountsInv WFBoard; decide)).2 c k

end ChessVarPy
